import Mathlib

/-!
Verification of the `slog-logfilter` dynamic log-filtering library.

This file embeds the library's core (the pattern matcher, the filter rule
model, the filter store with its derived cache, and the record handler's
per-record orchestration) as executable Lean definitions, translated
directly from the Go source (`handler.go`, the filter model file, and
`context.go`), and proves the specified properties about them.

Modelling conventions:
- Go strings are modelled as `List Char` (`Str`); the Go `strings` package
  helpers used by the source (`HasPrefix`, `HasSuffix`, `Contains`,
  `TrimPrefix`, `TrimSuffix`, `TrimSpace`, `ToLower`, `Index`, `LastIndex`)
  and `filepath.Base` are given faithful byte-for-byte translations below.
- `slog.Level` is an integer type in Go; it is modelled as `Int` with the
  stdlib constants Debug = -4, Info = 0, Warn = 4, Error = 8.
- `time.Time` values are modelled as `Int` instants; the Go zero time
  (`Time.IsZero`) is modelled as the instant `0`, and `time.Now().After t`
  as `now > t`.
- The shared `*slog.LevelVar` is modelled as an identifier (`Nat`) resolved
  to its current value through the ambient environment `Env`, so that two
  handlers sharing one `LevelVar` is expressible as equality of identifiers.
- The inner `slog.Handler` sink is modelled by the derivation tree
  `InnerSink`; forwarding a record to it is modelled by the result
  `HandleResult.emitted` carrying the forwarded record.
- The ambient effects read during one `Handle` call (the current time used
  by `IsActive`, the registered context extractors applied to the record's
  context, and the runtime's pc → (file, function) resolution in
  `extractSource`) are packaged in `Env`.
-/

/-- Go strings, modelled as lists of characters. -/
abbrev Str := List Char

/-- Convenience conversion from a Lean string literal to `Str`. -/
def str (s : String) : Str := s.toList

/-- Go `strings.HasPrefix s pre`. -/
def hasPrefix : Str → Str → Bool
  | _, [] => true
  | [], _ :: _ => false
  | c :: s, p :: ps => c == p && hasPrefix s ps

/-- Go `strings.HasSuffix s suf`. -/
def hasSuffix (s suf : Str) : Bool := hasPrefix s.reverse suf.reverse

/-- Go `strings.Contains s sub`. -/
def containsStr (s sub : Str) : Bool :=
  match s with
  | [] => hasPrefix [] sub
  | _ :: t => hasPrefix s sub || containsStr t sub

/-- Go `strings.TrimPrefix s pre`. -/
def trimPrefix (s pre : Str) : Str :=
  if hasPrefix s pre then s.drop pre.length else s

/-- Go `strings.TrimSuffix s suf`. -/
def trimSuffix (s suf : Str) : Str :=
  if hasSuffix s suf then s.take (s.length - suf.length) else s

/-- Go `strings.TrimSpace s` (leading and trailing whitespace removed). -/
def trimSpace (s : Str) : Str :=
  ((s.dropWhile Char.isWhitespace).reverse.dropWhile Char.isWhitespace).reverse

/-- Go `strings.ToLower s` (the source only ever compares ASCII level names). -/
def toLower (s : Str) : Str := s.map Char.toLower

/-- Go `strings.Index s (string c)` for a one-character needle. -/
def strIndexChar (s : Str) (c : Char) : Option Nat := s.findIdx? (· == c)

/-- Go `strings.LastIndex s (string c)` for a one-character needle. -/
def strLastIndexChar (s : Str) (c : Char) : Option Nat :=
  match s.reverse.findIdx? (· == c) with
  | some i => some (s.length - 1 - i)
  | none => none

/-- Go `path/filepath.Base` (unix separators, no volume names). -/
def basePath (path : Str) : Str :=
  if path = [] then ['.']
  else
    let p1 := (path.reverse.dropWhile (· == '/')).reverse
    let p2 :=
      match strLastIndexChar p1 '/' with
      | some i => p1.drop (i + 1)
      | none => p1
    if p2 = [] then ['/'] else p2

/-- Go `slog.LevelDebug`. -/
def LevelDebug : Int := -4
/-- Go `slog.LevelInfo`. -/
def LevelInfo : Int := 0
/-- Go `slog.LevelWarn`. -/
def LevelWarn : Int := 4
/-- Go `slog.LevelError`. -/
def LevelError : Int := 8

/-- Go `ParseLevel` from the filter model file: converts a level string to a
`slog.Level` via `switch strings.ToLower(strings.TrimSpace(level))`. -/
def ParseLevel (level : Str) : Int :=
  let l := toLower (trimSpace level)
  if l = str "debug" then LevelDebug
  else if l = str "info" then LevelInfo
  else if l = str "warn" ∨ l = str "warning" then LevelWarn
  else if l = str "error" then LevelError
  else LevelInfo

/-- Go `matchPattern` from the filter model file: fast glob-style pattern
matching with exact / prefix / suffix / contains cases. -/
def matchPattern (pattern value : Str) : Bool :=
  if pattern = [] then false
  else
    let startsWithWildcard := hasPrefix pattern ['*']
    let endsWithWildcard := hasSuffix pattern ['*']
    if startsWithWildcard && endsWithWildcard then
      let middle := trimSuffix (trimPrefix pattern ['*']) ['*']
      if middle = [] then true
      else containsStr value middle
    else if endsWithWildcard then
      hasPrefix value (trimSuffix pattern ['*'])
    else if startsWithWildcard then
      hasSuffix value (trimPrefix pattern ['*'])
    else pattern == value

/-- The pattern-matcher semantics exactly as the specification words them:
empty pattern never matches; `"*"`/`"**"` match everything; both-ends
wildcard tests containment of the middle; only-trailing wildcard tests the
prefix; only-leading wildcard tests the suffix; otherwise exact equality. -/
def matchPatternSpec (p v : Str) : Bool :=
  if p = [] then false
  else if p = ['*'] ∨ p = ['*', '*'] then true
  else if p.head? = some '*' ∧ p.getLast? = some '*' then
    containsStr v ((p.drop 1).dropLast)
  else if p.getLast? = some '*' then hasPrefix v p.dropLast
  else if p.head? = some '*' then hasSuffix v (p.drop 1)
  else p == v

/-- Go `LogFilter` from the filter model file. The Go field `Type` is spelled
`type` here (`Type` is reserved in Lean); `ExpiresAt : *time.Time` is
`Option Int`, with the Go zero time modelled as the instant `0`. -/
structure LogFilter where
  type : Str
  Pattern : Str
  Level : Str
  OutputLevel : Str
  Enabled : Bool
  ExpiresAt : Option Int
deriving DecidableEq, Repr

/-- Go `LogFilter.IsExpired`: false when `ExpiresAt` is nil or the zero time,
otherwise `time.Now().After(*f.ExpiresAt)`; `now` is the current instant. -/
def LogFilter.IsExpired (f : LogFilter) (now : Int) : Bool :=
  match f.ExpiresAt with
  | none => false
  | some t => if t = 0 then false else decide (now > t)

/-- Go `LogFilter.IsActive`: enabled and not expired. -/
def LogFilter.IsActive (f : LogFilter) (now : Int) : Bool :=
  f.Enabled && !(f.IsExpired now)

/-- Go `LogFilter.Matches`: pattern match of the filter's pattern against a value. -/
def LogFilter.Matches (f : LogFilter) (value : Str) : Bool :=
  matchPattern f.Pattern value

/-- Go `LogFilter.IsContextFilter`: the type string starts with `"context:"`. -/
def LogFilter.IsContextFilter (f : LogFilter) : Bool :=
  hasPrefix f.type (str "context:")

/-- Go `LogFilter.ContextKey`: the key after the `"context:"` prefix, or `""`. -/
def LogFilter.ContextKey (f : LogFilter) : Str :=
  if !f.IsContextFilter then [] else trimPrefix f.type (str "context:")

/-- Go `LogFilter.IsSourceFileFilter`: the type string is exactly `"source:file"`. -/
def LogFilter.IsSourceFileFilter (f : LogFilter) : Bool :=
  f.type == str "source:file"

/-- Go `LogFilter.IsSourceFunctionFilter`: the type string is exactly
`"source:function"`. -/
def LogFilter.IsSourceFunctionFilter (f : LogFilter) : Bool :=
  f.type == str "source:function"

/-- Go `LogFilter.IsSourceFilter`: source-file or source-function filter. -/
def LogFilter.IsSourceFilter (f : LogFilter) : Bool :=
  f.IsSourceFileFilter || f.IsSourceFunctionFilter

/-- Go `LogFilter.AttributeKey`: the type as-is for plain attribute filters,
`""` for context and source filters. -/
def LogFilter.AttributeKey (f : LogFilter) : Str :=
  if f.IsContextFilter || f.IsSourceFilter then [] else f.type

/-- Go `LogFilter.HasOutputLevel`: the filter transforms the output level. -/
def LogFilter.HasOutputLevel (f : LogFilter) : Bool :=
  f.OutputLevel != []

/-- Go `LogFilter.GetOutputLevel`: the parsed output level, or the original
level when no output level is set. -/
def LogFilter.GetOutputLevel (f : LogFilter) (originalLevel : Int) : Int :=
  if f.OutputLevel = [] then originalLevel else ParseLevel f.OutputLevel

/-- A `slog.Value`, reduced to what `attrValueToString` in `handler.go` can
observe of it: the string kind keeps its payload; integer, unsigned and
boolean kinds keep the data their `String()` rendering is computed from;
the remaining kinds (float, time, duration, and the default case), whose
renderings are produced wholesale by the Go standard library, carry that
rendered text. -/
inductive SlogValue where
  | stringVal (s : Str)
  | int64Val (i : Int)
  | uint64Val (n : Nat)
  | boolVal (b : Bool)
  | otherVal (rendered : Str)
deriving DecidableEq, Repr

/-- Go `attrValueToString` from `handler.go`: every branch of the Go switch
returns the standard string rendering of the value. -/
def attrValueToString : SlogValue → Str
  | .stringVal s => s
  | .int64Val i => (toString i).toList
  | .uint64Val n => (toString n).toList
  | .boolVal b => if b then str "true" else str "false"
  | .otherVal rendered => rendered

/-- A `slog.Attr`. -/
structure Attr where
  Key : Str
  Value : SlogValue
deriving DecidableEq, Repr

/-- A `slog.Record`: timestamp, severity, message, call-site token, and the
attribute sequence reachable through `Record.Attrs`. -/
structure Record where
  Time : Int
  Level : Int
  Message : Str
  PC : Nat
  Attrs : List Attr
deriving DecidableEq, Repr

/-- The inner `slog.Handler` sink, tracked as its derivation tree: the sink
the handler was constructed with, refined by `WithAttrs` / `WithGroup`. -/
inductive InnerSink where
  | base
  | withAttrs (parent : InnerSink) (attrs : List Attr)
  | withGroup (parent : InnerSink) (name : Str)
deriving DecidableEq, Repr

/-- Go `Handler` from `handler.go`. `globalLevel` is the identity of the shared
`*slog.LevelVar` (its current value lives in `Env.levelOf`); the mutex only
serialises access in Go and has no observable content here. -/
structure Handler where
  inner : InnerSink
  globalLevel : Nat
  filters : List LogFilter
  lowestLevel : Int
  hasSourceFilters : Bool
  preformattedAttrs : List Attr
  workDir : Str
deriving DecidableEq, Repr

/-- The ambient state read during one evaluation: the current instant (Go
`time.Now()`), the current value of each `slog.LevelVar`, the composite
`extractFromContext ctx` lookup for the record's context (registry plus
context, `context.go`), and the runtime's pc resolution as consumed by
`extractSource` (file and function already formatted by the resolver). -/
structure Env where
  now : Int
  levelOf : Nat → Int
  ctxExtract : Str → Option Str
  srcOf : Nat → Str × Str

/-- The step of `Handler.updateLowestLevel`'s loop over the filters,
accumulating the cached `(lowestLevel, hasSourceFilters)` pair. -/
def updateLowestStep (now : Int) (acc : Int × Bool) (f : LogFilter) : Int × Bool :=
  if f.IsActive now then
    (if ParseLevel f.Level < acc.1 then ParseLevel f.Level else acc.1,
     acc.2 || f.IsSourceFilter)
  else acc

/-- Go `Handler.updateLowestLevel` from `handler.go`: recomputes the cached
lowest active filter level (sentinel `LevelError + 1` when none) and
whether any active source filter exists. -/
def updateLowest (now : Int) (filters : List LogFilter) : Int × Bool :=
  filters.foldl (updateLowestStep now) (LevelError + 1, false)

/-- Go `NewHandler` from `handler.go` (the working directory resolved at
construction time is passed in). -/
def NewHandler (workDir : Str) (globalLevel : Nat) : Handler :=
  { inner := .base
    globalLevel := globalLevel
    filters := []
    lowestLevel := LevelError + 1
    hasSourceFilters := false
    preformattedAttrs := []
    workDir := workDir }

/-- Go `Handler.SetFilters`: replace all filters (with a copy) and recompute
the cache; `now` is the instant the mutation runs at. -/
def Handler.SetFilters (h : Handler) (now : Int) (filters : List LogFilter) : Handler :=
  let c := updateLowest now filters
  { h with filters := filters, lowestLevel := c.1, hasSourceFilters := c.2 }

/-- Go `Handler.GetFilters`: a copy of the current filters. -/
def Handler.GetFilters (h : Handler) : List LogFilter := h.filters

/-- Go `Handler.AddFilter`: append one filter and recompute the cache. -/
def Handler.AddFilter (h : Handler) (now : Int) (f : LogFilter) : Handler :=
  let fs := h.filters ++ [f]
  let c := updateLowest now fs
  { h with filters := fs, lowestLevel := c.1, hasSourceFilters := c.2 }

/-- Go `Handler.RemoveFilter`: drop every filter whose type and pattern both
equal the given pair, then recompute the cache. -/
def Handler.RemoveFilter (h : Handler) (now : Int) (filterType pattern : Str) : Handler :=
  let fs := h.filters.filter (fun f => f.type != filterType || f.Pattern != pattern)
  let c := updateLowest now fs
  { h with filters := fs, lowestLevel := c.1, hasSourceFilters := c.2 }

/-- Go `Handler.ClearFilters`: drop all filters and reset the cache. -/
def Handler.ClearFilters (h : Handler) : Handler :=
  { h with filters := [], lowestLevel := LevelError + 1, hasSourceFilters := false }

/-- Go `Handler.Enabled` from `handler.go`: true when the level is at or above
the dynamic global level, else when it is at or above the cached lowest
active filter level. -/
def Handler.Enabled (h : Handler) (env : Env) (level : Int) : Bool :=
  if env.levelOf h.globalLevel ≤ level then true
  else if h.lowestLevel ≤ level then true
  else false

/-- Go `Handler.WithAttrs` from `handler.go`: a fresh handler struct with a
derived inner sink, the same level variable and working directory, the
parent's filter slice and cached values copied, and the attributes appended
to the pre-formatted set. -/
def Handler.WithAttrs (h : Handler) (attrs : List Attr) : Handler :=
  { inner := .withAttrs h.inner attrs
    globalLevel := h.globalLevel
    filters := h.filters
    lowestLevel := h.lowestLevel
    hasSourceFilters := h.hasSourceFilters
    preformattedAttrs := h.preformattedAttrs ++ attrs
    workDir := h.workDir }

/-- Go `Handler.WithGroup` from `handler.go`: like `WithAttrs` but only the
inner sink is derived with the group name. -/
def Handler.WithGroup (h : Handler) (name : Str) : Handler :=
  { inner := .withGroup h.inner name
    globalLevel := h.globalLevel
    filters := h.filters
    lowestLevel := h.lowestLevel
    hasSourceFilters := h.hasSourceFilters
    preformattedAttrs := h.preformattedAttrs
    workDir := h.workDir }

/-- The outcome of one `Handler.Handle` call: the record was suppressed
(nil return without touching the inner sink), or the given record was
forwarded to the inner sink. -/
inductive HandleResult where
  | suppressed
  | emitted (r : Record)
deriving DecidableEq, Repr

/-- Assignment into the Go map `attrs` built at the top of `Handle`. -/
def mapInsert (m : Str → Option Str) (k v : Str) : Str → Option Str :=
  fun q => if q = k then some v else m q

/-- The attribute-flattening prologue of `Handler.Handle`: an empty map,
then every pre-formatted attribute, then every record attribute (later
assignments to a key overwrite earlier ones). -/
def buildAttrs (pre recAttrs : List Attr) : Str → Option Str :=
  recAttrs.foldl (fun m a => mapInsert m a.Key (attrValueToString a.Value))
    (pre.foldl (fun m a => mapInsert m a.Key (attrValueToString a.Value))
      (fun _ => none))

/-- The `switch` in `Handle`'s filter loop computing `(value, found)` for
one filter: source-file and source-function candidates (found when
non-empty), context extraction, or flattened-attribute lookup. -/
def candidateOf (env : Env) (attrs : Str → Option Str)
    (sourceFile sourceFunction : Str) (f : LogFilter) : Option Str :=
  if f.IsSourceFileFilter then
    if sourceFile = [] then none else some sourceFile
  else if f.IsSourceFunctionFilter then
    if sourceFunction = [] then none else some sourceFunction
  else if f.IsContextFilter then env.ctxExtract f.ContextKey
  else attrs f.AttributeKey

/-- One filter "matches the record": it is active, its candidate value was
found, and its pattern matches that value. -/
def ruleMatches (env : Env) (attrs : Str → Option Str)
    (sourceFile sourceFunction : Str) (f : LogFilter) : Bool :=
  f.IsActive env.now &&
    match candidateOf env attrs sourceFile sourceFunction f with
    | some v => f.Matches v
    | none => false

/-- The filter loop of `Handler.Handle`: walk the snapshot in order, skip
inactive filters, stop at the first filter whose found candidate matches. -/
def findMatch (env : Env) (attrs : Str → Option Str)
    (sourceFile sourceFunction : Str) : List LogFilter → Option LogFilter
  | [] => none
  | f :: rest =>
    if f.IsActive env.now then
      match candidateOf env attrs sourceFile sourceFunction f with
      | some v =>
        if f.Matches v then some f
        else findMatch env attrs sourceFile sourceFunction rest
      | none => findMatch env attrs sourceFile sourceFunction rest
    else findMatch env attrs sourceFile sourceFunction rest

/-- The source-extraction step of `Handler.Handle`: file and function are
resolved only when the cached `hasSourceFilters` is set and the record has
a call-site token; otherwise both stay empty. -/
def sourceInfo (env : Env) (h : Handler) (r : Record) : Str × Str :=
  if h.hasSourceFilters && (r.PC != 0) then env.srcOf r.PC else ([], [])

/-- The tail of `Handler.Handle` after the filter loop: the effective level
is the winner's parsed level (else the dynamic global level); records below
it are suppressed; a winner with an output level set forwards a new record
with only the level replaced (same time, message, pc, and attributes);
otherwise the record is forwarded unmodified. -/
def handleMatched (r : Record) (matched : Option LogFilter) (globalLevel : Int) :
    HandleResult :=
  let effectiveLevel :=
    match matched with
    | some f => ParseLevel f.Level
    | none => globalLevel
  if r.Level < effectiveLevel then .suppressed
  else
    match matched with
    | some f =>
      if f.HasOutputLevel then .emitted { r with Level := f.GetOutputLevel r.Level }
      else .emitted r
    | none => .emitted r

/-- Go `Handler.Handle` from `handler.go`: flatten attributes, snapshot the
filters and the source-filter flag, lazily resolve the call site, run the
first-match filter loop, then suppress / transform / forward. -/
def Handle (env : Env) (h : Handler) (r : Record) : HandleResult :=
  handleMatched r
    (findMatch env (buildAttrs h.preformattedAttrs r.Attrs)
      (sourceInfo env h r).1 (sourceInfo env h r).2 h.filters)
    (env.levelOf h.globalLevel)

/-- Go `Handler.formatSourcePath` from `handler.go`. `rel` models
`filepath.Rel` (`none` when it returns an error): a relative path inside
the tree wins; otherwise the module path up to (excluding) the first `.`
after the last `/` of the function name, prefixed with `@` and suffixed
with the base file name; otherwise the bare base file name. -/
def formatSourcePath (rel : Str → Str → Option Str)
    (workDir filePath functionName : Str) : Str :=
  let relOk : Option Str :=
    if workDir ≠ [] then
      match rel workDir filePath with
      | some r => if hasPrefix r (str "..") then none else some r
      | none => none
    else none
  match relOk with
  | some r => r
  | none =>
    let fromFunction : Option Str :=
      if functionName ≠ [] then
        match strLastIndexChar functionName '/' with
        | some lastSlash =>
          match strIndexChar (functionName.drop (lastSlash + 1)) '.' with
          | some dotIdx =>
            some ('@' :: functionName.take (lastSlash + 1 + dotIdx)
              ++ '/' :: basePath filePath)
          | none => none
        | none => none
      else none
    match fromFunction with
    | some s => s
    | none => basePath filePath

/-- Claim-side view of attribute flattening: the value of the last
occurrence of a key in an attribute list, if any. -/
def lastValue (as : List Attr) (k : Str) : Option SlogValue :=
  match as with
  | [] => none
  | a :: t =>
    match lastValue t k with
    | some v => some v
    | none => if a.Key = k then some a.Value else none

/-- The level vocabulary the parser accepts, as the amended claim states
it: the spec's four names plus the alias `"warning"`. -/
def levelVocab : List (Str × Int) :=
  [(str "debug", LevelDebug), (str "info", LevelInfo), (str "warn", LevelWarn),
   (str "warning", LevelWarn), (str "error", LevelError)]

/-- First-entry lookup in an association list of level names. -/
def lookupLevel (l : Str) : List (Str × Int) → Option Int
  | [] => none
  | (k, v) :: t => if l = k then some v else lookupLevel l t

/-- Claim-side level parsing (amended): trim surrounding whitespace, lower
the case, look the name up in the vocabulary, default to Info. -/
def parseLevelSpec (s : Str) : Int :=
  (lookupLevel (toLower (trimSpace s)) levelVocab).getD LevelInfo

/-- The derived-cache invariant the claim states: `lowestLevel` is a lower
bound of the parsed levels of the active filters and is attained by one of
them (or is the above-all sentinel when none is active), and
`hasSourceFilters` holds exactly when an active filter has type
`"source:file"` or `"source:function"`. -/
def cacheInvariant (now : Int) (h : Handler) : Prop :=
  (∀ f ∈ h.filters, f.IsActive now = true → h.lowestLevel ≤ ParseLevel f.Level) ∧
  ((∃ f ∈ h.filters, f.IsActive now = true ∧ h.lowestLevel = ParseLevel f.Level) ∨
    ((∀ f ∈ h.filters, f.IsActive now = false) ∧ h.lowestLevel = LevelError + 1)) ∧
  (h.hasSourceFilters = true ↔
    ∃ f ∈ h.filters, f.IsActive now = true ∧
      (f.type = str "source:file" ∨ f.type = str "source:function"))

/-- Claim-side out-of-tree display-file fallback (amended): module path up
to but excluding the first `.` after the last `/` of the function name,
prefixed `@` and suffixed with the base file name; bare base file name when
the function name lacks that shape. -/
def outOfTreeFallback (filePath functionName : Str) : Str :=
  match strLastIndexChar functionName '/' with
  | some lastSlash =>
    match strIndexChar (functionName.drop (lastSlash + 1)) '.' with
    | some dotIdx =>
      '@' :: functionName.take (lastSlash + 1 + dotIdx) ++ '/' :: basePath filePath
    | none => basePath filePath
  | none => basePath filePath

/-- A concrete evaluation environment for witnesses: instant 0, every level
variable at Info, no context extraction, no source resolution. -/
def env0 : Env :=
  { now := 0, levelOf := fun _ => LevelInfo, ctxExtract := fun _ => none,
    srcOf := fun _ => ([], []) }

/-- A concrete handler fresh from `NewHandler`. -/
def h0 : Handler := NewHandler [] 0

/-- Attribute filter on key `k`, match-all pattern, level debug. -/
def fKDebug : LogFilter := ⟨str "k", ['*'], str "debug", [], true, none⟩

/-- Attribute filter on key `k`, match-all pattern, level warn. -/
def fKWarn : LogFilter := ⟨str "k", ['*'], str "warn", [], true, none⟩

/-- Attribute filter on key `k`, match-all pattern, level error. -/
def fKError : LogFilter := ⟨str "k", ['*'], str "error", [], true, none⟩

/-- Attribute filter with an output-level transform debug → info. -/
def fKOut : LogFilter := ⟨str "k", ['*'], str "debug", str "info", true, none⟩

/-- A disabled filter. -/
def fDisabled : LogFilter := ⟨str "k", ['*'], str "debug", [], false, none⟩

/-- An enabled filter whose expiry lies in the past of instant 0. -/
def fExpired : LogFilter := ⟨str "k", ['*'], str "debug", [], true, some (-5)⟩

/-- An enabled filter whose expiry lies in the future of instant 0. -/
def fFuture : LogFilter := ⟨str "k", ['*'], str "debug", [], true, some 5⟩

/-- Attribute filter on `job_id` with exact pattern `a`. -/
def fA : LogFilter := ⟨str "job_id", str "a", str "debug", [], true, none⟩

/-- Attribute filter on `job_id` with exact pattern `b`. -/
def fB : LogFilter := ⟨str "job_id", str "b", str "debug", [], true, none⟩

/-- A debug-level record carrying the attribute `k="x"`. -/
def rKDebug : Record :=
  ⟨0, LevelDebug, str "msg", 0, [⟨str "k", .stringVal (str "x")⟩]⟩

theorem hasPrefix_nil_right (s : Str) : hasPrefix s [] = true := by
  cases s <;> rfl

theorem hasPrefix_star_iff (p : Str) : hasPrefix p ['*'] = true ↔ p.head? = some '*' := by
  cases p with
  | nil => simp [hasPrefix]
  | cons c t => simp [hasPrefix, hasPrefix_nil_right]

theorem hasSuffix_star_iff (p : Str) : hasSuffix p ['*'] = true ↔ p.getLast? = some '*' := by
  show hasPrefix p.reverse ['*'] = true ↔ _
  rw [hasPrefix_star_iff, List.head?_reverse]

theorem trimPrefix_star (p : Str) (h : hasPrefix p ['*'] = true) :
    trimPrefix p ['*'] = p.drop 1 := by
  simp [trimPrefix, h]

theorem trimSuffix_star (p : Str) (h : hasSuffix p ['*'] = true) :
    trimSuffix p ['*'] = p.dropLast := by
  simp [trimSuffix, h, List.dropLast_eq_take]

/-- C5: pattern-matcher semantics. `matchPattern`, as the source implements
it, agrees with the specification's six-case description on every pattern
and value: empty pattern never matches; `"*"` and `"**"` match everything
(including the empty value); both-ends wildcard with non-empty middle is a
containment test of the middle; trailing-only wildcard is a prefix test of
the pattern without its trailing star; leading-only wildcard is a suffix
test of the pattern without its leading star; no wildcard is exact
equality. -/
theorem c5_matchPattern_semantics (p v : Str) : matchPattern p v = matchPatternSpec p v := by
  by_cases hnil : p = []
  · subst hnil; rfl
  by_cases hstar : p = ['*']
  · subst hstar; rfl
  by_cases hstar2 : p = ['*', '*']
  · subst hstar2; rfl
  cases hsw : hasPrefix p ['*'] <;> cases hew : hasSuffix p ['*']
  · -- no leading, no trailing wildcard: exact equality on both sides
    have hL : ¬ p.head? = some '*' := by
      intro hc; rw [← hasPrefix_star_iff] at hc; simp [hsw] at hc
    have hT : ¬ p.getLast? = some '*' := by
      intro hc; rw [← hasSuffix_star_iff] at hc; simp [hew] at hc
    simp [matchPattern, matchPatternSpec, hnil, hstar, hstar2, hsw, hew, hL, hT]
  · -- trailing wildcard only: prefix test
    have hL : ¬ p.head? = some '*' := by
      intro hc; rw [← hasPrefix_star_iff] at hc; simp [hsw] at hc
    have hT : p.getLast? = some '*' := (hasSuffix_star_iff p).mp hew
    simp [matchPattern, matchPatternSpec, hnil, hstar, hstar2, hsw, hew, hL, hT,
      trimSuffix_star p hew]
  · -- leading wildcard only: suffix test
    have hL : p.head? = some '*' := (hasPrefix_star_iff p).mp hsw
    have hT : ¬ p.getLast? = some '*' := by
      intro hc; rw [← hasSuffix_star_iff] at hc; simp [hew] at hc
    simp [matchPattern, matchPatternSpec, hnil, hstar, hstar2, hsw, hew, hL, hT,
      trimPrefix_star p hsw]
  · -- both wildcards, pattern at least three characters: containment test
    have hL : p.head? = some '*' := (hasPrefix_star_iff p).mp hsw
    have hT : p.getLast? = some '*' := (hasSuffix_star_iff p).mp hew
    obtain ⟨c, t, rfl⟩ : ∃ c t, p = c :: t := by
      cases p with
      | nil => exact absurd rfl hnil
      | cons c t => exact ⟨c, t, rfl⟩
    have hc : c = '*' := by simpa using hL
    subst hc
    have ht : t ≠ [] := by
      intro hte; subst hte; exact hstar rfl
    have htT : t.getLast? = some '*' := by
      cases t with
      | nil => exact absurd rfl ht
      | cons x xs => rwa [List.getLast?_cons_cons] at hT
    have hdrop : ('*' :: t).drop 1 = t := rfl
    have hmidSuffix : hasSuffix t ['*'] = true := (hasSuffix_star_iff t).mpr htT
    have hmid : trimSuffix (trimPrefix ('*' :: t) ['*']) ['*'] = t.dropLast := by
      rw [trimPrefix_star _ hsw, hdrop, trimSuffix_star _ hmidSuffix]
    have hmidne : t.dropLast ≠ [] := by
      intro hde
      cases t with
      | nil => exact ht rfl
      | cons x xs =>
        cases xs with
        | nil =>
          have : x = '*' := by simpa using htT
          exact hstar2 (by simp [this])
        | cons y ys => simp [List.dropLast] at hde
    simp [matchPattern, matchPatternSpec, hnil, hstar, hstar2, hsw, hew, hL, hT,
      hmid, hmidne]

/-- C6 counterexample: `ParseLevel` does not send every string outside the
four names to Info. `"warning"` parses as Warn and `" debug "` (surrounding
whitespace) parses as Debug, though neither is one of `"debug"`, `"info"`,
`"warn"`, `"error"` under case-insensitive comparison. -/
theorem c6_counterexample :
    ParseLevel (str "warning") = LevelWarn ∧ ParseLevel (str " debug ") = LevelDebug ∧
    LevelWarn ≠ LevelInfo ∧ LevelDebug ≠ LevelInfo := by decide

/-- C6 (amended): `ParseLevel` trims surrounding whitespace, compares
case-insensitively against the vocabulary `debug`, `info`, `warn`,
`warning`, `error`, and maps every string whose trimmed, lowered form is
outside that vocabulary to Info. -/
theorem c6_parseLevel_amended (s : Str) : ParseLevel s = parseLevelSpec s := by
  by_cases h1 : toLower (trimSpace s) = str "debug" <;>
    by_cases h2 : toLower (trimSpace s) = str "info" <;>
      by_cases h3 : toLower (trimSpace s) = str "warn" <;>
        by_cases h4 : toLower (trimSpace s) = str "warning" <;>
          by_cases h5 : toLower (trimSpace s) = str "error" <;>
            · simp [ParseLevel, parseLevelSpec, levelVocab, lookupLevel, h1, h2, h3, h4, h5]
              try decide

theorem buildAttrs_foldl (m : Str → Option Str) (as : List Attr) (k : Str) :
    (as.foldl (fun m a => mapInsert m a.Key (attrValueToString a.Value)) m) k
      = match lastValue as k with
        | some v => some (attrValueToString v)
        | none => m k := by
  induction as generalizing m with
  | nil => rfl
  | cons a t ih =>
    simp only [List.foldl_cons]
    rw [ih]
    cases hlv : lastValue t k with
    | some v => simp [lastValue, hlv]
    | none =>
      by_cases hk : a.Key = k
      · simp [lastValue, hlv, hk, mapInsert]
      · have hk' : ¬ k = a.Key := fun hc => hk hc.symm
        simp [lastValue, hlv, hk, hk', mapInsert]

/-- C10: the flattened attribute map `Handle` matches rules against binds
each key to the stringified value of the key's last occurrence among the
record's attributes (in record order); a key absent from the record falls
back to the stringified value of its last occurrence among the pre-bound
attributes; otherwise it is unbound. In particular any per-call occurrence
overrides a pre-bound attribute of the same key. -/
theorem c10_flatten_last_occurrence (pre ra : List Attr) (k : Str) :
    buildAttrs pre ra k
      = match lastValue ra k with
        | some v => some (attrValueToString v)
        | none =>
          match lastValue pre k with
          | some v => some (attrValueToString v)
          | none => none := by
  unfold buildAttrs
  rw [buildAttrs_foldl]
  cases hra : lastValue ra k with
  | some v => rfl
  | none =>
    rw [buildAttrs_foldl]

theorem step_inactive (now : Int) (acc : Int × Bool) (f : LogFilter)
    (h : f.IsActive now = false) : updateLowestStep now acc f = acc := by
  simp [updateLowestStep, h]

theorem step_active (now : Int) (acc : Int × Bool) (f : LogFilter)
    (h : f.IsActive now = true) :
    updateLowestStep now acc f
      = (if ParseLevel f.Level < acc.1 then ParseLevel f.Level else acc.1,
         acc.2 || f.IsSourceFilter) := by
  simp [updateLowestStep, h]

theorem step_fst_le (now : Int) (acc : Int × Bool) (f : LogFilter) :
    (updateLowestStep now acc f).1 ≤ acc.1 := by
  unfold updateLowestStep
  split
  · dsimp only
    split <;> omega
  · exact le_refl _

theorem foldl_step_fst_le_acc (now : Int) (fs : List LogFilter) (acc : Int × Bool) :
    (fs.foldl (updateLowestStep now) acc).1 ≤ acc.1 := by
  induction fs generalizing acc with
  | nil => exact le_refl _
  | cons g t ih =>
    simp only [List.foldl_cons]
    exact le_trans (ih (updateLowestStep now acc g)) (step_fst_le now acc g)

theorem foldl_step_fst_le (now : Int) (f : LogFilter) (hact : f.IsActive now = true) :
    ∀ (fs : List LogFilter) (acc : Int × Bool), f ∈ fs →
      (fs.foldl (updateLowestStep now) acc).1 ≤ ParseLevel f.Level := by
  intro fs
  induction fs with
  | nil => intro acc hf; cases hf
  | cons g t ih =>
    intro acc hf
    rcases List.mem_cons.mp hf with rfl | hmem
    · simp only [List.foldl_cons]
      refine le_trans (foldl_step_fst_le_acc now t _) ?_
      rw [step_active now acc f hact]
      dsimp only
      split <;> omega
    · simp only [List.foldl_cons]
      exact ih _ hmem

theorem foldl_step_fst_cases (now : Int) :
    ∀ (fs : List LogFilter) (acc : Int × Bool),
      (fs.foldl (updateLowestStep now) acc).1 = acc.1 ∨
      ∃ f ∈ fs, f.IsActive now = true ∧
        (fs.foldl (updateLowestStep now) acc).1 = ParseLevel f.Level := by
  intro fs
  induction fs with
  | nil => intro acc; exact Or.inl rfl
  | cons g t ih =>
    intro acc
    rcases ih (updateLowestStep now acc g) with h | ⟨f, hmem, hact, heq⟩
    · by_cases hg : g.IsActive now = true
      · by_cases hlt : ParseLevel g.Level < acc.1
        · refine Or.inr ⟨g, List.mem_cons_self g t, hg, ?_⟩
          simp only [List.foldl_cons]
          rw [h, step_active now acc g hg]
          simp [hlt]
        · refine Or.inl ?_
          simp only [List.foldl_cons]
          rw [h, step_active now acc g hg]
          simp [hlt]
      · refine Or.inl ?_
        simp only [List.foldl_cons]
        rw [h, step_inactive now acc g (by simpa using hg)]
    · refine Or.inr ⟨f, List.mem_cons_of_mem _ hmem, hact, ?_⟩
      simp only [List.foldl_cons]
      exact heq

theorem foldl_step_snd (now : Int) :
    ∀ (fs : List LogFilter) (acc : Int × Bool),
      (fs.foldl (updateLowestStep now) acc).2
        = (acc.2 || fs.any (fun f => f.IsActive now && f.IsSourceFilter)) := by
  intro fs
  induction fs with
  | nil => intro acc; simp
  | cons g t ih =>
    intro acc
    simp only [List.foldl_cons, List.any_cons]
    rw [ih]
    by_cases hg : g.IsActive now = true
    · rw [step_active now acc g hg]
      dsimp only
      simp [hg, Bool.or_assoc]
    · have hg' : g.IsActive now = false := by simpa using hg
      rw [step_inactive now acc g hg']
      simp [hg']

theorem ParseLevel_le (s : Str) : ParseLevel s ≤ LevelError := by
  simp only [ParseLevel]
  split_ifs <;> decide

theorem isSourceFilter_iff (f : LogFilter) :
    f.IsSourceFilter = true
      ↔ (f.type = str "source:file" ∨ f.type = str "source:function") := by
  simp [LogFilter.IsSourceFilter, LogFilter.IsSourceFileFilter,
    LogFilter.IsSourceFunctionFilter]

theorem cacheInvariant_updateLowest (now : Int) (h : Handler)
    (hfl : h.lowestLevel = (updateLowest now h.filters).1)
    (hsrc : h.hasSourceFilters = (updateLowest now h.filters).2) :
    cacheInvariant now h := by
  have hE : LevelError = 8 := rfl
  refine ⟨?_, ?_, ?_⟩
  · intro f hf hact
    rw [hfl]
    exact foldl_step_fst_le now f hact h.filters _ hf
  · rcases foldl_step_fst_cases now h.filters (LevelError + 1, false) with hcase | ⟨f, hmem, hact, heq⟩
    · right
      refine ⟨?_, ?_⟩
      · intro f hf
        cases hb : f.IsActive now with
        | false => rfl
        | true =>
          exfalso
          have h1 : (h.filters.foldl (updateLowestStep now) (LevelError + 1, false)).1
              ≤ ParseLevel f.Level := foldl_step_fst_le now f hb h.filters _ hf
          have h2 : ParseLevel f.Level ≤ LevelError := ParseLevel_le f.Level
          rw [hcase] at h1
          rw [hE] at h1 h2
          omega
      · rw [hfl]
        exact hcase
    · left
      exact ⟨f, hmem, hact, by rw [hfl]; exact heq⟩
  · rw [hsrc]
    show (h.filters.foldl (updateLowestStep now) (LevelError + 1, false)).2 = true ↔ _
    rw [foldl_step_snd]
    simp only [Bool.false_or, List.any_eq_true, Bool.and_eq_true]
    constructor
    · rintro ⟨f, hf, hact, hsf⟩
      exact ⟨f, hf, hact, (isSourceFilter_iff f).mp hsf⟩
    · rintro ⟨f, hf, hact, hty⟩
      exact ⟨f, hf, hact, (isSourceFilter_iff f).mpr hty⟩

/-- C7: after every mutating operation (`SetFilters`, `AddFilter`,
`RemoveFilter`, `ClearFilters`) completes at instant `now`, the handler's
cached `lowestLevel` is exactly the minimum parsed level over the filters
active at that instant (the above-all sentinel `LevelError + 1` when none
is active), and `hasSourceFilters` holds iff some active filter has type
`"source:file"` or `"source:function"`. -/
theorem c7_cache_invariant (now : Int) (h : Handler) (fs : List LogFilter)
    (f : LogFilter) (filterType pat : Str) :
    cacheInvariant now (h.SetFilters now fs) ∧
    cacheInvariant now (h.AddFilter now f) ∧
    cacheInvariant now (h.RemoveFilter now filterType pat) ∧
    cacheInvariant now h.ClearFilters := by
  exact ⟨cacheInvariant_updateLowest now _ rfl rfl,
    cacheInvariant_updateLowest now _ rfl rfl,
    cacheInvariant_updateLowest now _ rfl rfl,
    cacheInvariant_updateLowest now _ rfl rfl⟩

/-- C7 witness: the invariant evaluated after concrete mutations. -/
theorem c7_witness :
    cacheInvariant 0 (h0.SetFilters 0 [fKWarn]) ∧
    cacheInvariant 0 (h0.AddFilter 0 fKWarn) ∧
    cacheInvariant 0 (h0.RemoveFilter 0 (str "k") ['*']) ∧
    cacheInvariant 0 h0.ClearFilters :=
  c7_cache_invariant 0 h0 [fKWarn] fKWarn (str "k") ['*']

theorem findMatch_nil (env : Env) (attrs : Str → Option Str) (sf sfn : Str) :
    findMatch env attrs sf sfn [] = none := rfl

theorem findMatch_cons (env : Env) (attrs : Str → Option Str) (sf sfn : Str)
    (f : LogFilter) (rest : List LogFilter) :
    findMatch env attrs sf sfn (f :: rest)
      = if f.IsActive env.now then
          match candidateOf env attrs sf sfn f with
          | some v => if f.Matches v then some f else findMatch env attrs sf sfn rest
          | none => findMatch env attrs sf sfn rest
        else findMatch env attrs sf sfn rest := rfl

theorem findMatch_some (env : Env) (attrs : Str → Option Str) (sf sfn : Str) :
    ∀ (fs : List LogFilter) (f : LogFilter), findMatch env attrs sf sfn fs = some f →
      f ∈ fs ∧ f.IsActive env.now = true := by
  intro fs
  induction fs with
  | nil => intro f h; cases h
  | cons g t ih =>
    intro f h
    rw [findMatch_cons] at h
    by_cases hg : g.IsActive env.now = true
    · rw [if_pos hg] at h
      cases hc : candidateOf env attrs sf sfn g with
      | some v =>
        rw [hc] at h
        dsimp only at h
        by_cases hm : g.Matches v = true
        · rw [if_pos hm] at h
          cases h
          exact ⟨List.mem_cons_self g t, hg⟩
        · rw [if_neg hm] at h
          obtain ⟨hmem, hact⟩ := ih f h
          exact ⟨List.mem_cons_of_mem _ hmem, hact⟩
      | none =>
        rw [hc] at h
        dsimp only at h
        obtain ⟨hmem, hact⟩ := ih f h
        exact ⟨List.mem_cons_of_mem _ hmem, hact⟩
    · rw [if_neg hg] at h
      obtain ⟨hmem, hact⟩ := ih f h
      exact ⟨List.mem_cons_of_mem _ hmem, hact⟩

theorem isExpired_mono (f : LogFilter) (t0 t : Int) (h01 : t0 ≤ t)
    (h : f.IsExpired t = false) : f.IsExpired t0 = false := by
  unfold LogFilter.IsExpired at h ⊢
  cases hf : f.ExpiresAt with
  | none => rfl
  | some e =>
    rw [hf] at h
    dsimp only at h ⊢
    by_cases hz : e = 0
    · simp [hz]
    · rw [if_neg hz] at h ⊢
      simp only [decide_eq_false_iff_not] at h ⊢
      omega

theorem isActive_mono (f : LogFilter) (t0 t : Int) (h01 : t0 ≤ t)
    (hact : f.IsActive t = true) : f.IsActive t0 = true := by
  simp only [LogFilter.IsActive, Bool.and_eq_true, Bool.not_eq_true'] at hact ⊢
  exact ⟨hact.1, isExpired_mono f t0 t h01 hact.2⟩

theorem enabled_false_bounds (h : Handler) (env : Env) (level : Int)
    (he : h.Enabled env level = false) :
    level < env.levelOf h.globalLevel ∧ level < h.lowestLevel := by
  unfold Handler.Enabled at he
  by_cases h1 : env.levelOf h.globalLevel ≤ level
  · rw [if_pos h1] at he
    cases he
  · by_cases h2 : h.lowestLevel ≤ level
    · rw [if_neg h1, if_pos h2] at he
      cases he
    · omega

/-- C1: fast-reject soundness. If a handler's cached `lowestLevel` and
`hasSourceFilters` are the ones a mutating operation computed at instant
`t0`, and a record is evaluated at any instant `env.now ≥ t0`, then
whenever `Enabled` reports false for the record's level (the level is below
the dynamic global level and below the cached lowest level), `Handle`
suppresses the record and never forwards it to the inner sink —
equivalently, `Enabled` never skips a record that full evaluation would
emit. -/
theorem c1_fast_reject_sound (env : Env) (h : Handler) (r : Record) (t0 : Int)
    (hfl : h.lowestLevel = (updateLowest t0 h.filters).1)
    (_hsrc : h.hasSourceFilters = (updateLowest t0 h.filters).2)
    (ht : t0 ≤ env.now)
    (hen : h.Enabled env r.Level = false) :
    Handle env h r = .suppressed := by
  obtain ⟨hg, hl⟩ := enabled_false_bounds h env r.Level hen
  unfold Handle
  cases hm : findMatch env (buildAttrs h.preformattedAttrs r.Attrs)
      (sourceInfo env h r).1 (sourceInfo env h r).2 h.filters with
  | none =>
    dsimp only [handleMatched]
    rw [if_pos hg]
  | some f =>
    obtain ⟨hmem, hact⟩ := findMatch_some env _ _ _ h.filters f hm
    have hact0 : f.IsActive t0 = true := isActive_mono f t0 env.now ht hact
    have hle : (updateLowest t0 h.filters).1 ≤ ParseLevel f.Level :=
      foldl_step_fst_le t0 f hact0 h.filters _ hmem
    have hcond : r.Level < ParseLevel f.Level := by
      rw [hfl] at hl
      omega
    dsimp only [handleMatched]
    rw [if_pos hcond]

/-- C1 witness: with one active warn-level filter cached at instant 0 and
the global level at Info, a debug record is fast-rejected by `Enabled` and
indeed suppressed by `Handle`. -/
theorem c1_witness :
    (h0.SetFilters 0 [fKWarn]).Enabled env0 rKDebug.Level = false ∧
    Handle env0 (h0.SetFilters 0 [fKWarn]) rKDebug = .suppressed :=
  ⟨by decide,
   c1_fast_reject_sound env0 (h0.SetFilters 0 [fKWarn]) rKDebug 0 rfl rfl
     (by decide) (by decide)⟩

theorem findMatch_none_of_no_match (env : Env) (attrs : Str → Option Str) (sf sfn : Str) :
    ∀ (l : List LogFilter), (∀ g ∈ l, ruleMatches env attrs sf sfn g = false) →
      findMatch env attrs sf sfn l = none := by
  intro l
  induction l with
  | nil => intro _; rfl
  | cons g t ih =>
    intro hall
    have hg := hall g (List.mem_cons_self g t)
    have hrest : findMatch env attrs sf sfn t = none :=
      ih (fun f hf => hall f (List.mem_cons_of_mem _ hf))
    rw [findMatch_cons]
    by_cases hact : g.IsActive env.now = true
    · rw [if_pos hact]
      cases hc : candidateOf env attrs sf sfn g with
      | some v =>
        dsimp only
        have hm : g.Matches v = false := by
          unfold ruleMatches at hg
          rw [hact, hc] at hg
          simpa using hg
        rw [if_neg (by simp [hm])]
        exact hrest
      | none =>
        dsimp only
        exact hrest
    · rw [if_neg hact]
      exact hrest

theorem findMatch_append_none (env : Env) (attrs : Str → Option Str) (sf sfn : Str) :
    ∀ (l1 l2 : List LogFilter), findMatch env attrs sf sfn l1 = none →
      findMatch env attrs sf sfn (l1 ++ l2) = findMatch env attrs sf sfn l2 := by
  intro l1
  induction l1 with
  | nil => intro l2 _; rfl
  | cons g t ih =>
    intro l2 h
    rw [findMatch_cons] at h
    rw [List.cons_append, findMatch_cons]
    by_cases hact : g.IsActive env.now = true
    · rw [if_pos hact] at h ⊢
      cases hc : candidateOf env attrs sf sfn g with
      | some v =>
        rw [hc] at h
        dsimp only at h ⊢
        by_cases hm : g.Matches v = true
        · rw [if_pos hm] at h
          cases h
        · rw [if_neg hm] at h ⊢
          exact ih l2 h
      | none =>
        rw [hc] at h
        dsimp only at h ⊢
        exact ih l2 h
    · rw [if_neg hact] at h ⊢
      exact ih l2 h

theorem findMatch_cons_of_match (env : Env) (attrs : Str → Option Str) (sf sfn : Str)
    (f : LogFilter) (rest : List LogFilter)
    (h : ruleMatches env attrs sf sfn f = true) :
    findMatch env attrs sf sfn (f :: rest) = some f := by
  unfold ruleMatches at h
  simp only [Bool.and_eq_true] at h
  obtain ⟨hact, hmv⟩ := h
  rw [findMatch_cons, if_pos hact]
  cases hc : candidateOf env attrs sf sfn f with
  | some v =>
    rw [hc] at hmv
    dsimp only at hmv ⊢
    rw [if_pos hmv]
  | none =>
    rw [hc] at hmv
    simp at hmv

/-- C3: first-match-wins. Whenever the handler's filter list splits as
`l1 ++ f :: rest` where no rule of `l1` matches the record and `f` does
(active, candidate found, pattern matches), the outcome of `Handle` is
decided entirely by `f`: the effective threshold is `f`'s parsed level and
the output transform (if any) is `f`'s — independently of every rule in
`rest`, in particular of rules with numerically lower or higher
thresholds. -/
theorem c3_first_match_wins (env : Env) (h : Handler) (r : Record)
    (l1 : List LogFilter) (f : LogFilter) (rest : List LogFilter)
    (hfs : h.filters = l1 ++ f :: rest)
    (hno : ∀ g ∈ l1, ruleMatches env (buildAttrs h.preformattedAttrs r.Attrs)
      (sourceInfo env h r).1 (sourceInfo env h r).2 g = false)
    (hf : ruleMatches env (buildAttrs h.preformattedAttrs r.Attrs)
      (sourceInfo env h r).1 (sourceInfo env h r).2 f = true) :
    Handle env h r
      = (if r.Level < ParseLevel f.Level then .suppressed
         else if f.HasOutputLevel then
           .emitted { r with Level := f.GetOutputLevel r.Level }
         else .emitted r) := by
  unfold Handle
  rw [hfs,
    findMatch_append_none env _ _ _ l1 (f :: rest)
      (findMatch_none_of_no_match env _ _ _ l1 hno),
    findMatch_cons_of_match env _ _ _ f rest hf]
  dsimp only [handleMatched]

/-- C3 witness: with two always-matching filters `[debug, error]`, a debug
record takes the first filter's debug threshold and is emitted. -/
theorem c3_witness :
    Handle env0 (h0.SetFilters 0 [fKDebug, fKError]) rKDebug
      = (if rKDebug.Level < ParseLevel fKDebug.Level then .suppressed
         else if fKDebug.HasOutputLevel then
           .emitted { rKDebug with Level := fKDebug.GetOutputLevel rKDebug.Level }
         else .emitted rKDebug) :=
  c3_first_match_wins env0 (h0.SetFilters 0 [fKDebug, fKError]) rKDebug
    [] fKDebug [fKError] rfl (by decide) (by decide)

theorem handle_emitted_shape (env : Env) (h : Handler) (r out : Record)
    (hem : Handle env h r = .emitted out) :
    (findMatch env (buildAttrs h.preformattedAttrs r.Attrs) (sourceInfo env h r).1
        (sourceInfo env h r).2 h.filters = none ∧ out = r) ∨
    (∃ f, findMatch env (buildAttrs h.preformattedAttrs r.Attrs) (sourceInfo env h r).1
        (sourceInfo env h r).2 h.filters = some f ∧
      ((f.OutputLevel = [] ∧ out = r) ∨
       (f.OutputLevel ≠ [] ∧ out = { r with Level := ParseLevel f.OutputLevel }))) := by
  unfold Handle at hem
  cases hm : findMatch env (buildAttrs h.preformattedAttrs r.Attrs) (sourceInfo env h r).1
      (sourceInfo env h r).2 h.filters with
  | none =>
    rw [hm] at hem
    dsimp only [handleMatched] at hem
    by_cases hlt : r.Level < env.levelOf h.globalLevel
    · rw [if_pos hlt] at hem
      cases hem
    · rw [if_neg hlt] at hem
      injection hem with h1
      exact Or.inl ⟨rfl, h1.symm⟩
  | some f =>
    rw [hm] at hem
    dsimp only [handleMatched] at hem
    by_cases hlt : r.Level < ParseLevel f.Level
    · rw [if_pos hlt] at hem
      cases hem
    · rw [if_neg hlt] at hem
      by_cases ho : f.HasOutputLevel = true
      · rw [if_pos ho] at hem
        injection hem with h1
        have hne : f.OutputLevel ≠ [] := by
          unfold LogFilter.HasOutputLevel at ho
          simpa using ho
        refine Or.inr ⟨f, rfl, Or.inr ⟨hne, ?_⟩⟩
        rw [← h1]
        unfold LogFilter.GetOutputLevel
        rw [if_neg hne]
      · rw [if_neg ho] at hem
        injection hem with h1
        have heq : f.OutputLevel = [] := by
          unfold LogFilter.HasOutputLevel at ho
          simpa using ho
        exact Or.inr ⟨f, rfl, Or.inl ⟨heq, h1.symm⟩⟩

/-- C4: output-level transform frame. Every record `Handle` forwards keeps
the original time, message, call-site token, and attribute sequence; when
the winning rule has a non-empty output level the forwarded severity is
that level parsed, and when no rule matched or the winning rule's output
level is empty the record is forwarded exactly as it came in. -/
theorem c4_output_transform_frame (env : Env) (h : Handler) (r out : Record)
    (f : LogFilter) :
    (Handle env h r = .emitted out →
      out.Time = r.Time ∧ out.Message = r.Message ∧ out.PC = r.PC ∧
        out.Attrs = r.Attrs) ∧
    (Handle env h r = .emitted out →
      findMatch env (buildAttrs h.preformattedAttrs r.Attrs) (sourceInfo env h r).1
        (sourceInfo env h r).2 h.filters = some f →
      f.OutputLevel ≠ [] → out.Level = ParseLevel f.OutputLevel) ∧
    (Handle env h r = .emitted out →
      findMatch env (buildAttrs h.preformattedAttrs r.Attrs) (sourceInfo env h r).1
        (sourceInfo env h r).2 h.filters = some f →
      f.OutputLevel = [] → out = r) ∧
    (Handle env h r = .emitted out →
      findMatch env (buildAttrs h.preformattedAttrs r.Attrs) (sourceInfo env h r).1
        (sourceInfo env h r).2 h.filters = none → out = r) := by
  refine ⟨?_, ?_, ?_, ?_⟩
  · intro hem
    rcases handle_emitted_shape env h r out hem with ⟨_, rfl⟩ | ⟨g, _, hcase⟩
    · exact ⟨rfl, rfl, rfl, rfl⟩
    · rcases hcase with ⟨_, rfl⟩ | ⟨_, rfl⟩
      · exact ⟨rfl, rfl, rfl, rfl⟩
      · exact ⟨rfl, rfl, rfl, rfl⟩
  · intro hem hfm hne
    rcases handle_emitted_shape env h r out hem with ⟨hnone, _⟩ | ⟨g, hg, hcase⟩
    · rw [hfm] at hnone
      cases hnone
    · rw [hfm] at hg
      injection hg with hg
      subst hg
      rcases hcase with ⟨heq, _⟩ | ⟨_, rfl⟩
      · exact absurd heq hne
      · rfl
  · intro hem hfm heq
    rcases handle_emitted_shape env h r out hem with ⟨hnone, _⟩ | ⟨g, hg, hcase⟩
    · rw [hfm] at hnone
      cases hnone
    · rw [hfm] at hg
      injection hg with hg
      subst hg
      rcases hcase with ⟨_, rfl⟩ | ⟨hne, _⟩
      · rfl
      · exact absurd heq hne
  · intro hem hfm
    rcases handle_emitted_shape env h r out hem with ⟨_, rfl⟩ | ⟨g, hg, _⟩
    · rfl
    · rw [hfm] at hg
      cases hg

/-- C4 witness: a debug record matching a filter with output level `info`
is emitted with severity Info and otherwise-unchanged fields. -/
theorem c4_witness :
    (({ rKDebug with Level := LevelInfo } : Record).Time = rKDebug.Time ∧
      ({ rKDebug with Level := LevelInfo } : Record).Message = rKDebug.Message ∧
      ({ rKDebug with Level := LevelInfo } : Record).PC = rKDebug.PC ∧
      ({ rKDebug with Level := LevelInfo } : Record).Attrs = rKDebug.Attrs) ∧
    ({ rKDebug with Level := LevelInfo } : Record).Level = ParseLevel fKOut.OutputLevel :=
  ⟨(c4_output_transform_frame env0 (h0.SetFilters 0 [fKOut]) rKDebug
      { rKDebug with Level := LevelInfo } fKOut).1 (by decide),
   (c4_output_transform_frame env0 (h0.SetFilters 0 [fKOut]) rKDebug
      { rKDebug with Level := LevelInfo } fKOut).2.1 (by decide) (by decide) (by decide)⟩

theorem updateLowest_filter_active (now : Int) (L : List LogFilter) :
    updateLowest now (L.filter (fun g => g.IsActive now)) = updateLowest now L := by
  unfold updateLowest
  suffices hgen : ∀ acc, (L.filter (fun g => g.IsActive now)).foldl (updateLowestStep now) acc
      = L.foldl (updateLowestStep now) acc from hgen _
  induction L with
  | nil => intro acc; rfl
  | cons g t ih =>
    intro acc
    by_cases hg : g.IsActive now = true
    · rw [List.filter_cons_of_pos (by simpa using hg)]
      simp only [List.foldl_cons]
      exact ih _
    · rw [List.filter_cons_of_neg (by simpa using hg)]
      simp only [List.foldl_cons]
      rw [step_inactive now acc g (by simpa using hg)]
      exact ih acc

theorem findMatch_filter_active (env : Env) (attrs : Str → Option Str) (sf sfn : Str)
    (L : List LogFilter) :
    findMatch env attrs sf sfn (L.filter (fun g => g.IsActive env.now))
      = findMatch env attrs sf sfn L := by
  induction L with
  | nil => rfl
  | cons g t ih =>
    by_cases hg : g.IsActive env.now = true
    · rw [List.filter_cons_of_pos (by simpa using hg), findMatch_cons, findMatch_cons,
        if_pos hg, if_pos hg]
      cases hc : candidateOf env attrs sf sfn g with
      | some v =>
        dsimp only
        by_cases hm : g.Matches v = true
        · rw [if_pos hm, if_pos hm]
        · rw [if_neg hm, if_neg hm, ih]
      | none =>
        dsimp only
        exact ih
    · rw [List.filter_cons_of_neg (by simpa using hg), findMatch_cons, if_neg hg, ih]

/-- C8: inactive rules are inert. Replacing the filter list with its
active-only sublist (with the cache recomputed at the same instant) leaves
the outcome of `Handle` for every record unchanged; and concretely a
disabled rule is never active, a rule whose expiry lies strictly in the
past is never active regardless of `Enabled`, while a rule with absent
expiry, the zero expiry, or a future expiry is active whenever enabled. -/
theorem c8_inactive_inert (env : Env) (h : Handler) (L : List LogFilter) (r : Record)
    (f : LogFilter) (t : Int) :
    Handle env (h.SetFilters env.now (L.filter (fun g => g.IsActive env.now))) r
        = Handle env (h.SetFilters env.now L) r ∧
    (f.Enabled = false → f.IsActive env.now = false) ∧
    (f.ExpiresAt = some t → t ≠ 0 → t < env.now → f.IsActive env.now = false) ∧
    (f.Enabled = true → f.ExpiresAt = none → f.IsActive env.now = true) ∧
    (f.Enabled = true → f.ExpiresAt = some t → t = 0 ∨ env.now ≤ t →
      f.IsActive env.now = true) := by
  refine ⟨?_, ?_, ?_, ?_, ?_⟩
  · have hfd : updateLowest env.now (L.filter (fun g => g.IsActive env.now))
        = updateLowest env.now L := updateLowest_filter_active env.now L
    unfold Handle sourceInfo Handler.SetFilters
    simp only
    rw [hfd, findMatch_filter_active]
  · intro he
    simp [LogFilter.IsActive, he]
  · intro hex hnz hlt
    simp [LogFilter.IsActive, LogFilter.IsExpired, hex, hnz, hlt]
  · intro hen hex
    simp [LogFilter.IsActive, LogFilter.IsExpired, hen, hex]
  · intro hen hex hor
    rcases hor with hz | hle
    · simp [LogFilter.IsActive, LogFilter.IsExpired, hen, hex, hz]
    · simp [LogFilter.IsActive, LogFilter.IsExpired, hen, hex]
      omega

/-- C8 witness: the active-sublist equivalence and the activity facts at a
concrete filter list containing a disabled, an expired, and a live rule. -/
theorem c8_witness :
    Handle env0 (h0.SetFilters env0.now
        ([fDisabled, fExpired, fKWarn].filter (fun g => g.IsActive env0.now))) rKDebug
      = Handle env0 (h0.SetFilters env0.now [fDisabled, fExpired, fKWarn]) rKDebug ∧
    fDisabled.IsActive env0.now = false ∧
    fExpired.IsActive env0.now = false ∧
    fFuture.IsActive env0.now = true :=
  ⟨(c8_inactive_inert env0 h0 [fDisabled, fExpired, fKWarn] rKDebug fExpired (-5)).1,
   (c8_inactive_inert env0 h0 [] rKDebug fDisabled 0).2.1 rfl,
   (c8_inactive_inert env0 h0 [] rKDebug fExpired (-5)).2.2.1 rfl (by decide) (by decide),
   (c8_inactive_inert env0 h0 [] rKDebug fFuture 5).2.2.2.2 rfl rfl (Or.inr (by decide))⟩

/-- C2 counterexample: filter mutations on the original handler are NOT
observed by a previously derived handler. `WithAttrs` copies the parent's
filter slice (and cached values) into a fresh struct with its own lock, and
`SetFilters` installs a fresh slice in the parent only, so after deriving a
child from a handler holding `[fA]` and then replacing the parent's filters
with `[fB]`, the parent reports `[fB]` while the child still reports and
evaluates `[fA]` — the claim requires both to observe the mutation. -/
theorem c2_counterexample :
    ((h0.SetFilters 0 [fA]).SetFilters 0 [fB]).GetFilters
      ≠ ((h0.SetFilters 0 [fA]).WithAttrs []).GetFilters := by decide

/-- C2 (amended): `WithAttrs` (and `WithGroup`) returns a new handler that
shares the same dynamic-threshold variable and working directory, carries a
correspondingly derived inner sink, extends (for `WithAttrs`) the pre-bound
attribute set, and copies the parent's filter list and cached values as a
snapshot taken at derivation time; the original handler is not mutated, and
filter mutations performed on the original after the derivation are not
observed by the derived handler. -/
theorem c2_binding_derivation_amended (h : Handler) (attrs : List Attr) (name : Str)
    (now : Int) (fs : List LogFilter) :
    ((h.WithAttrs attrs).globalLevel = h.globalLevel ∧
     (h.WithAttrs attrs).inner = .withAttrs h.inner attrs ∧
     (h.WithAttrs attrs).workDir = h.workDir ∧
     (h.WithAttrs attrs).preformattedAttrs = h.preformattedAttrs ++ attrs ∧
     (h.WithAttrs attrs).filters = h.filters ∧
     (h.WithAttrs attrs).lowestLevel = h.lowestLevel ∧
     (h.WithAttrs attrs).hasSourceFilters = h.hasSourceFilters) ∧
    ((h.WithGroup name).globalLevel = h.globalLevel ∧
     (h.WithGroup name).inner = .withGroup h.inner name ∧
     (h.WithGroup name).workDir = h.workDir ∧
     (h.WithGroup name).preformattedAttrs = h.preformattedAttrs ∧
     (h.WithGroup name).filters = h.filters ∧
     (h.WithGroup name).lowestLevel = h.lowestLevel ∧
     (h.WithGroup name).hasSourceFilters = h.hasSourceFilters) ∧
    (fs ≠ h.filters →
      (h.SetFilters now fs).GetFilters ≠ (h.WithAttrs attrs).GetFilters) := by
  refine ⟨⟨rfl, rfl, rfl, rfl, rfl, rfl, rfl⟩, ⟨rfl, rfl, rfl, rfl, rfl, rfl, rfl⟩, ?_⟩
  intro hne
  exact hne

/-- C2 witness: the amended derivation facts at a concrete handler, with
the snapshot divergence discharged on `[fB] ≠ [fA]`. -/
theorem c2_witness :
    (((h0.SetFilters 0 [fA]).SetFilters 0 [fB]).GetFilters
      ≠ ((h0.SetFilters 0 [fA]).WithAttrs []).GetFilters) ∧
    ((h0.SetFilters 0 [fA]).WithAttrs []).filters = (h0.SetFilters 0 [fA]).filters :=
  ⟨((c2_binding_derivation_amended (h0.SetFilters 0 [fA]) [] [] 0 [fB]).2.2
      (by decide)),
   (c2_binding_derivation_amended (h0.SetFilters 0 [fA]) [] [] 0 [fB]).1.2.2.2.2.1⟩

/-- C9 counterexample: the out-of-tree fallback excludes the first `.`
after the last `/` from the module path. With relativization failing,
file `/x/file.go` and function name `a/b.F`, the code produces
`@a/b/file.go`, not the `@a/b./file.go` that "up to and including the
first '.'" would give. -/
theorem c9_counterexample :
    formatSourcePath (fun _ _ => none) (str "/w") (str "/x/file.go") (str "a/b.F")
        = str "@a/b/file.go" ∧
    str "@a/b/file.go" ≠ str "@a/b./file.go" := by decide

/-- C9 (amended): whenever relativization against the working directory
fails or yields a path beginning with `".."`, the resolved display file is
`"@" + modulePath + "/" + baseFileName` where `modulePath` is everything in
the function name up to but excluding the first `.` found after the last
`/`; when the function name lacks that slash-then-dot shape (or is empty),
it is the bare base file name. -/
theorem c9_out_of_tree_fallback_amended (rel : Str → Str → Option Str)
    (workDir filePath functionName : Str)
    (hrel : rel workDir filePath = none ∨
      ∃ rp, rel workDir filePath = some rp ∧ hasPrefix rp (str "..") = true) :
    formatSourcePath rel workDir filePath functionName
      = outOfTreeFallback filePath functionName := by
  have hnone : (if workDir ≠ [] then
      match rel workDir filePath with
      | some r => if hasPrefix r (str "..") then none else some r
      | none => none
    else none) = (none : Option Str) := by
    by_cases hw : workDir = []
    · simp [hw]
    · rcases hrel with hn | ⟨rp, hr, hp⟩
      · simp [hw, hn]
      · simp [hw, hr, hp]
  simp only [formatSourcePath]
  rw [hnone]
  by_cases hfn : functionName = []
  · subst hfn
    simp [outOfTreeFallback, strLastIndexChar]
  · rw [if_pos hfn]
    unfold outOfTreeFallback
    cases hls : strLastIndexChar functionName '/' with
    | none => rfl
    | some ls =>
      dsimp only
      cases hdi : strIndexChar (functionName.drop (ls + 1)) '.' with
      | none => rfl
      | some di => rfl

/-- C9 witness: the amended fallback evaluated with a failing
relativization on a realistic qualified function name. -/
theorem c9_witness :
    formatSourcePath (fun _ _ => none) (str "/w") (str "/x/file.go")
        (str "github.com/user/repo/pkg.(*Type).Method")
      = outOfTreeFallback (str "/x/file.go")
          (str "github.com/user/repo/pkg.(*Type).Method") :=
  c9_out_of_tree_fallback_amended (fun _ _ => none) (str "/w") (str "/x/file.go")
    (str "github.com/user/repo/pkg.(*Type).Method") (Or.inl rfl)
